import Mathlib

/-!
# Verification of the NEO-6M GPS data parser (GPS_NEO6M_Parse_R4_FSP.ino)

Shallow embedding of the core pipeline of the Arduino sketch:
checksum validation (`getSentence`, lines 257-303), field parsing
(`parseSentence`, lines 306-395), the calendar/timezone block of `loop`
(lines 150-193), the ring buffer (`gpsDataReadISR` lines 75-86 and the
drain loop of `getSentence` lines 230-256), and the helper conversions
`htoi` (lines 569-577) and `dtoi` (lines 580-585).

Machine integers are modelled as `Nat`/`Int` with explicit reductions
modulo 2^8 where the C code narrows to `byte`.  C strings are `List Char`;
a char is converted to a byte via `Char.toNat % 256`, matching the
`byte(...)` cast of the source.  `double` values (latitude/longitude) are
modelled as exact rationals: the fields involved are short decimal
numerals, and every claim about them is an approximation claim with a
tolerance far above the rounding error of IEEE doubles.
-/

/-- `dtoi` (sketch lines 580-585): a decimal digit to its value, any other
character to zero. -/
def dtoi (c : Char) : Nat :=
  if 48 ≤ c.toNat ∧ c.toNat ≤ 57 then c.toNat - 48 else 0

/-- `htoi` (sketch lines 569-577): uppercase the character (C `toupper`,
ASCII), then decode `0`-`9` and `A`-`F`; everything else gives zero. -/
def htoi (c : Char) : Nat :=
  let n := if 97 ≤ c.toNat ∧ c.toNat ≤ 122 then c.toNat - 32 else c.toNat
  if 48 ≤ n ∧ n ≤ 57 then n - 48
  else if 65 ≤ n ∧ n ≤ 70 then n - 65 + 10
  else 0

/-- Case-insensitive hexadecimal value of one character, non-hex characters
decoding to zero.  Written from the spec's words (section 4.3); compared
against the source's `htoi` in the round-trip theorem. -/
def hexVal (c : Char) : Nat :=
  if 48 ≤ c.toNat ∧ c.toNat ≤ 57 then c.toNat - 48
  else if 65 ≤ c.toNat ∧ c.toNat ≤ 70 then c.toNat - 55
  else if 97 ≤ c.toNat ∧ c.toNat ≤ 102 then c.toNat - 87
  else 0

/-- XOR checksum of a payload (sketch lines 265-267):
`ckSumCalc ^= byte(nmeaData[i])` over all characters before the
terminator. -/
def xorCk (p : List Char) : Nat :=
  p.foldl (fun a c => Nat.xor a (c.toNat % 256)) 0

/-- One uppercase hexadecimal digit character (sender side, from the spec's
wire-protocol grammar `$<payload>*<2-hex-digit-checksum>`). -/
def hexDig (d : Nat) : Char :=
  Char.ofNat (if d < 10 then 48 + d else 55 + d)

/-- A byte as two uppercase hexadecimal digit characters (sender side). -/
def hexEncode (n : Nat) : List Char :=
  [hexDig (n / 16), hexDig (n % 16)]

/-- Transmitted checksum byte (sketch line 269):
`(htoi(nmeaCkSum[0]) << 4) + htoi(nmeaCkSum[1])`; the shift is `* 16`. -/
def ckVal (t : List Char) : Nat :=
  htoi (t.getD 0 '\x00') * 16 + htoi (t.getD 1 '\x00')

/-- Bool test used when modelling `strtok(sentence, "*")`. -/
def isStar (c : Char) : Bool := c = '*'

/-- Bool test for the C string terminator. -/
def isNul (c : Char) : Bool := c = '\x00'

/-- Bool test for the field delimiter sought by `strchr(pointer, ',')`. -/
def isComma (c : Char) : Bool := c = ','

/-- Outcome of the validation part of `getSentence` (lines 257-303).
`silentReject` covers the paths where the record is discarded without
touching the error counter: `strtok` found no token (`nmeaData == NULL`),
no second token (`nmeaCkSum == NULL`), or a checksum text shorter than two
characters.  `mismatch` is the path of lines 281-294 (counter incremented,
diagnostic printed). -/
inductive VRes
  | accepted
  | mismatch
  | silentReject
deriving DecidableEq

/-- Validation of a framed record, ported from `getSentence` lines 258-301.
The record is read as a C string (up to the first NUL).
`strtok(sentence, "*")` returns the first maximal run of non-`*`
characters after skipping leading `*`s (NULL when there is none, modelled
as `[]`); the second `strtok(NULL, "*")` call continues the same way. -/
def validateRecord (r : List Char) : VRes :=
  let s := r.takeWhile (fun c => !(isNul c))
  let t1 := (s.dropWhile isStar).takeWhile (fun c => !(isStar c))
  let r1 := (s.dropWhile isStar).dropWhile (fun c => !(isStar c))
  let t2 := (r1.dropWhile isStar).takeWhile (fun c => !(isStar c))
  if t1 = [] then .silentReject
  else if t2 = [] then .silentReject
  else if t2.length < 2 then .silentReject
  else if xorCk t1 = ckVal t2 then .accepted
  else .mismatch

/-! ## The shared fix state and the field parser -/

/-- The shared fix state: the `byte`/`bool`/`double` globals of
lines 47-51 of the sketch.  `byte` fields are `Nat` (every write keeps
them below 256, with the explicit `% 256` narrowings noted where they
occur), `double` fields are exact rationals. -/
structure GpsFix where
  timeH : Nat
  timeM : Nat
  timeS : Nat
  dateD : Nat
  dateM : Nat
  dateY : Nat
  lat : ℚ
  long : ℚ
  valid : Bool
  sats : Nat
deriving DecidableEq

/-- The zero-initialised globals at reset: numeric globals start at 0 and
`gpsValid` at `false` (lines 47-51). -/
def initGpsFix : GpsFix :=
  { timeH := 0, timeM := 0, timeS := 0, dateD := 0, dateM := 0, dateY := 0,
    lat := 0, long := 0, valid := false, sats := 0 }

/-- C `atoi` as called on a GGA field (line 383): skip leading white
space, an optional sign, then a maximal run of decimal digits. -/
def atoiZ (s : List Char) : Int :=
  let s1 := s.dropWhile (fun c => c.toNat = 32 ∨ (9 ≤ c.toNat ∧ c.toNat ≤ 13))
  let digits : List Char → Nat :=
    fun l => (l.takeWhile (fun c => 48 ≤ c.toNat ∧ c.toNat ≤ 57)).foldl
      (fun a c => a * 10 + (c.toNat - 48)) 0
  match s1 with
  | '-' :: r => -(digits r : Int)
  | '+' :: r => (digits r : Int)
  | _ => (digits s1 : Int)

/-- Lexical part of C `atof` as called on the latitude/longitude minute
part (lines 341 and 350): skip leading white space, read an optional
sign, the integer digits, and the fraction digits after an optional
decimal point.  Returns (negative?, integer value, fraction value,
number of fraction digits).  Exponent notation never occurs in these
NMEA fields and is not modelled. -/
def atofParts (s : List Char) : Bool × Nat × Nat × Nat :=
  let s1 := s.dropWhile (fun c => c.toNat = 32 ∨ (9 ≤ c.toNat ∧ c.toNat ≤ 13))
  let dig : Char → Bool := fun c => 48 ≤ c.toNat ∧ c.toNat ≤ 57
  let val : List Char → Nat :=
    fun l => (l.takeWhile dig).foldl (fun a c => a * 10 + (c.toNat - 48)) 0
  let core : List Char → Nat × Nat × Nat := fun l =>
    let fp := match l.dropWhile dig with
      | '.' :: r => r.takeWhile dig
      | _ => []
    (val l, val fp, fp.length)
  match s1 with
  | '-' :: r => (true, core r)
  | '+' :: r => (false, core r)
  | _ => (false, core s1)

/-- The value C `atof` returns, as an exact rational. -/
def atofQ (s : List Char) : ℚ :=
  let p := atofParts s
  (if p.1 then -1 else 1) * ((p.2.1 : ℚ) + (p.2.2.1 : ℚ) / 10 ^ p.2.2.2)

/-- An `int` narrowed to a `byte`, as in `gpsSats = ...` (line 383):
C's conversion to `unsigned char`, i.e. the value modulo 2^8. -/
def byteOfInt (i : Int) : Nat := (i.emod 256).toNat

/-- Splitting a C string at every comma, mirroring the successive
`strchr(pointer, ',')` calls of `parseSentence`: each call isolates the
prefix before the next comma (the current field) and the suffix after it.
The list of fields produced here is exactly the sequence of `pointer`
values those calls would visit when the pointer is advanced past each
comma. -/
def splitComma : List Char → List (List Char)
  | [] => [[]]
  | c :: rest =>
    match splitComma rest with
    | [] => [[]]
    | t :: ts => if c = ',' then [] :: t :: ts else (c :: t) :: ts

/-- One positional GPRMC field block (the `if (fieldCounter == k)` bodies
of lines 331-362).  `mem` is the buffer content from `pointer` onward at
the moment the block runs, i.e. AFTER `strchr` replaced this field's
trailing comma with NUL: the field's characters, that NUL, then the
following bytes of the buffer verbatim (the later fields with their
commas still intact, and, past the payload's terminator, whatever
follows it in `sentence`).  The fixed-index reads `pointer[0..5]`
(fields 1, 3, 5, 9) and the `atof(pointer+2)` / `atof(pointer+3)` calls
therefore read PAST the current field when it is shorter than those
offsets, exactly as the C does; the `strcmp` fields (2, 4, 6) compare
the C string at `pointer`, i.e. `mem` up to its first NUL.  A read
beyond the end of `mem` is outside the modeled buffer region and yields
NUL; theorems either supply the relevant trailing bytes in `mem` or
quantify over them. -/
def applyRMCField (n : Nat) (mem : List Char) (f : GpsFix) : GpsFix :=
  if n = 1 then
    { f with
      timeH := dtoi (mem.getD 0 '\x00') * 10 + dtoi (mem.getD 1 '\x00'),
      timeM := dtoi (mem.getD 2 '\x00') * 10 + dtoi (mem.getD 3 '\x00'),
      timeS := dtoi (mem.getD 4 '\x00') * 10 + dtoi (mem.getD 5 '\x00') }
  else if n = 2 then { f with valid := mem.takeWhile (fun c => !(isNul c)) = ['A'] }
  else if n = 3 then
    { f with lat := (dtoi (mem.getD 0 '\x00') * 10 + dtoi (mem.getD 1 '\x00') : ℚ)
        + atofQ (mem.drop 2) / 60 }
  else if n = 4 then
    (if mem.takeWhile (fun c => !(isNul c)) = ['S'] then { f with lat := -f.lat } else f)
  else if n = 5 then
    { f with long := (dtoi (mem.getD 0 '\x00') * 100 + dtoi (mem.getD 1 '\x00') * 10
        + dtoi (mem.getD 2 '\x00') : ℚ) + atofQ (mem.drop 3) / 60 }
  else if n = 6 then
    (if mem.takeWhile (fun c => !(isNul c)) = ['W'] then { f with long := -f.long } else f)
  else if n = 9 then
    { f with
      dateD := dtoi (mem.getD 0 '\x00') * 10 + dtoi (mem.getD 1 '\x00'),
      dateM := dtoi (mem.getD 2 '\x00') * 10 + dtoi (mem.getD 3 '\x00'),
      dateY := dtoi (mem.getD 4 '\x00') * 10 + dtoi (mem.getD 5 '\x00') }
  else f

/-- The GPRMC field loop (lines 322-365) on the raw buffer bytes from
`pointer` onward.  Each iteration: `strchr(pointer, ',')` searches the C
string at `pointer` (`cstr`, up to the first NUL); if a comma is found
it is overwritten with NUL, making the current field `fld` the C string
at `pointer`; a non-empty field is parsed with the block seeing
`fld ++ NUL ++ rest` and the pointer advances past the comma; an empty
field is never advanced past — the next iteration finds no comma in the
now-empty C string and the loop exits (modelled as an immediate return,
the extra iteration parses nothing).  When no comma is found the last
field is parsed (the block seeing the untouched remainder `p`) and the
loop ends.  The fuel argument only bounds the recursion: every
continuing iteration consumes the field plus its comma — at least one
byte — from `p`, so `fuel = p.length` (see `rmcFields`) never runs out;
when it reaches 0 the remainder is empty and the loop would stop anyway,
returning the fix unchanged exactly as the 0 case does. -/
def rmcFieldsAux : Nat → List Char → Nat → GpsFix → GpsFix
  | 0, _, _, f => f
  | fuel + 1, p, n, f =>
    let cstr := p.takeWhile (fun c => !(isNul c))
    let fld := cstr.takeWhile (fun c => !(isComma c))
    if fld.length < cstr.length then
      if 0 < fld.length then
        rmcFieldsAux fuel (p.drop (fld.length + 1)) (n + 1)
          (applyRMCField n (fld ++ '\x00' :: p.drop (fld.length + 1)) f)
      else f
    else if 0 < fld.length then applyRMCField n p f else f

/-- The GPRMC field loop started on the buffer suffix `p`. -/
def rmcFields (p : List Char) (n : Nat) (f : GpsFix) : GpsFix :=
  rmcFieldsAux p.length p n f

/-- The GPGGA field loop (lines 374-387).  Unlike the GPRMC loop, the
pointer advance (line 386) sits outside the emptiness test, so the scan
always moves on; only field 7, when non-empty, is consumed
(`gpsSats = gpsValid ? atoi(pointer) : 0`, line 383, narrowed to a
`byte`). -/
def ggaFields : List (List Char) → Nat → GpsFix → GpsFix
  | [], _, f => f
  | fld :: rest, n, f =>
    let f2 := if n = 7 ∧ 0 < fld.length then
        { f with sats := if f.valid then byteOfInt (atoiZ fld) else 0 }
      else f
    ggaFields rest (n + 1) f2

/-- `parseSentence` (lines 306-395) on the buffer content `s` (the
payload C string, optionally followed by its terminating NUL and the
bytes after it — the modeled region of `sentence`).  `strchr(sentence,
',')` searches the C string (up to the first NUL) for a comma; none
means nothing is parsed.  Otherwise the identifier before the comma is
compared with `strcmp` and the matching field loop runs on the bytes
after the comma: the GPRMC loop on the raw bytes (its blocks read past
field boundaries, see `applyRMCField`), the GPGGA loop on the comma
split of the remainder.  The GPGGA loop's single consumer
(`strlen`/`atoi` on field 7, line 383) never reads beyond the current
field's C string, and `atoiZ` stops at a NUL, so the split is an exact
view of the pointer walk whenever field 7 lies before the remainder's
first NUL — as in every GPGGA sentence of the protocol (14 fields,
field 7 interior).  The one idealisation: the split also treats commas
AFTER that NUL as delimiters, where the C scan has already stopped; it
is visible only on degenerate records whose payload ends before field 7
while the bytes past the terminator supply extra commas. -/
def parseSentence (s : List Char) (f : GpsFix) : GpsFix :=
  let cstr := s.takeWhile (fun c => !(isNul c))
  let ty := cstr.takeWhile (fun c => !(isComma c))
  if ty.length < cstr.length then
    if ty = "GPRMC".toList then rmcFields (s.drop (ty.length + 1)) 1 f
    else if ty = "GPGGA".toList then ggaFields (splitComma (s.drop (ty.length + 1))) 1 f
    else f
  else f

/-! ## The calendar / timezone engine (`loop`, lines 150-193) -/

/-- The `daysInMonth` lookup table of line 134, indexed by month
(`daysInMonth[0] = 0` is the unused guard entry). -/
def daysInMonth (m : Int) : Int :=
  if m = 1 then 31 else if m = 2 then 28 else if m = 3 then 31
  else if m = 4 then 30 else if m = 5 then 31 else if m = 6 then 30
  else if m = 7 then 31 else if m = 8 then 31 else if m = 9 then 30
  else if m = 10 then 31 else if m = 11 then 30 else if m = 12 then 31
  else 0

/-- `maxDays = (m == 2 && isLeap) ? 29 : daysInMonth[m]` (lines 169 and
187), with `isLeap = (y % 4 == 0)` (line 163).  The sketch evaluates
`isLeap` on the year before any rollover; in the only branch where the
year changes (month underflow to December) the February case cannot
apply, so passing the pre-rollover year here is exact. -/
def dimLeap (m y : Int) : Int :=
  if m = 2 ∧ y % 4 = 0 then 29 else daysInMonth m

/-- Day/month/year rollover block of `loop` (lines 162-188), applied to
the already hour-adjusted values. -/
def tzRoll (h d m y : Int) : Int × Int × Int × Int :=
  if 0 < d then
    if dimLeap m y < d then
      if 12 < m + 1 then (h, 1, 1, if 99 < y + 1 then 0 else y + 1)
      else (h, 1, m + 1, y)
    else (h, d, m, y)
  else
    if m - 1 < 1 then (h, dimLeap 12 y, 12, if y - 1 < 0 then 99 else y - 1)
    else (h, dimLeap (m - 1) y, m - 1, y)

/-- The timezone calculation of `loop` (lines 150-188): signed
arithmetic on `h = gpsTimeH + TZOFFSET` with hour rollover (lines
155-161) followed by the calendar rollover.  The sketch ships with
`TZOFFSET = 0`; the offset is the configuration parameter here. -/
def tzAdjust (off h0 d0 m0 y0 : Int) : Int × Int × Int × Int :=
  let h := h0 + off
  if 24 ≤ h then tzRoll (h - 24) (d0 + 1) m0 y0
  else if h < 0 then tzRoll (h + 24) (d0 - 1) m0 y0
  else tzRoll h d0 m0 y0

/-- Write-back of the adjusted values into the globals (lines 190-193):
`gpsTimeH = (byte)h` etc., the C narrowing conversion to `byte`. -/
def tzApply (off : Int) (f : GpsFix) : GpsFix :=
  let r := tzAdjust off (f.timeH : Int) (f.dateD : Int) (f.dateM : Int) (f.dateY : Int)
  { f with timeH := byteOfInt r.1, dateD := byteOfInt r.2.1,
           dateM := byteOfInt r.2.2.1, dateY := byteOfInt r.2.2.2 }

/-- The body of step 2 of `loop` (lines 147-193) for an ACCEPTED record
whose payload (the C string left in `sentence` after `strtok`) is `s`:
`parseSentence()` followed by the timezone calculation.  Note the
calculation is NOT gated on the sentence type. -/
def acceptedStep (off : Int) (f : GpsFix) (s : List Char) : GpsFix :=
  tzApply off (parseSentence s f)

/-- One `loop` pass over a framed record `r`, tracking the fix and the
`checksumErrors` counter (line 52).  On acceptance, `parseSentence` sees
the `sentence` buffer as `strtok` left it: the payload (everything
before the record's first `*`), the NUL `strtok` wrote over that `*`,
then the remaining record bytes verbatim.  (Two simplifications, both
observationally silent: when the record STARTS with `*` the real buffer
keeps the leading stars, so the sentence type starts with `*` and
matches neither identifier — here the payload is empty and the type
likewise matches neither; and the second `strtok` call may overwrite one
more `*` in the trailing bytes with NUL, but every read the parser makes
there treats `*` and NUL alike — `dtoi` maps both to 0 and `atof` stops
at both — while the `strcmp` comparisons never reach past the payload's
terminator.)  On a checksum mismatch the counter is incremented
(line 282); on a silent reject nothing changes. -/
def loopStep (off : Int) (st : GpsFix × Nat) (r : List Char) : GpsFix × Nat :=
  match validateRecord r with
  | .accepted =>
    (acceptedStep off st.1
      ((r.takeWhile (fun c => !(isNul c))).takeWhile (fun c => !(isStar c))
        ++ '\x00' :: ((r.takeWhile (fun c => !(isNul c))).dropWhile (fun c => !(isStar c))).drop 1),
      st.2)
  | .mismatch => (st.1, st.2 + 1)
  | .silentReject => st

/-! ## Claim-side calendar definitions

`nextDayS`, `prevDayS` and `monthDays` are written from the words of the
claims ("a day past month-end resets to 1 with month+1, month past 12
resets to 1 with year+1, year past 99 wraps to 0, and February has 29
days exactly when year % 4 == 0"; resp. "when the month drops below 1 it
becomes 12 with year-1, year below 0 wraps to 99, and the day is set to
the last day of the new month").  They are the comparison targets for
the source-side `tzAdjust`. -/

/-- Days in a month per the claims: February has 29 days exactly when
`y % 4 = 0`, otherwise the standard table. -/
def monthDays (m y : Int) : Int :=
  if m = 2 ∧ y % 4 = 0 then 29 else daysInMonth m

/-- The next calendar day, as the claims describe it. -/
def nextDayS (d m y : Int) : Int × Int × Int :=
  if d + 1 ≤ monthDays m y then (d + 1, m, y)
  else if m + 1 ≤ 12 then (1, m + 1, y)
  else (1, 1, if y + 1 ≤ 99 then y + 1 else 0)

/-- The previous calendar day, as the claims describe it. -/
def prevDayS (d m y : Int) : Int × Int × Int :=
  if 1 ≤ d - 1 then (d - 1, m, y)
  else if 1 ≤ m - 1 then (monthDays (m - 1) y, m - 1, y)
  else if 0 ≤ y - 1 then (monthDays 12 (y - 1), 12, y - 1)
  else (monthDays 12 99, 12, 99)

/-! ## The byte ring buffer

Producer: `gpsDataReadISR`, lines 75-86.  Consumer: the drain loop of
`getSentence`, lines 230-256, which reads one byte per iteration and
advances `bufferTail`.  The ISR is not preemptible and the consumer
snapshots `bufferHead` under `noInterrupts()`, so every execution of the
system is an interleaving of atomic single-byte pushes and single-byte
reads; the model's operations are exactly those.  `pushed` and `drained`
are history variables recording the bytes offered by `Serial1` and the
bytes the consumer observed. -/

/-- `GPSBUFR1` (line 33). -/
def GPSBUFR1 : Nat := 512

/-- The buffer state: `gpsDataBuffer`, `bufferHead`, `bufferTail`,
`bufferOverflow` (lines 40-43) plus the two history logs. -/
structure RingState where
  data : Nat → Nat
  head : Nat
  tail : Nat
  overflow : Bool
  pushed : List Nat
  drained : List Nat

/-- Initial state: indices zero, flag clear (lines 41-43). -/
def rbInit : RingState :=
  { data := fun _ => 0, head := 0, tail := 0, overflow := false,
    pushed := [], drained := [] }

/-- One producer push (ISR lines 76-85): compute
`newBufferHead = (bufferHead + 1) % GPSBUFR1`; if it equals `bufferTail`
the buffer is full, the byte is dropped and the sticky overflow flag is
set; otherwise the byte is stored at `bufferHead` and the head
advances. -/
def rbPush (b : Nat) (s : RingState) : RingState :=
  let newHead := (s.head + 1) % GPSBUFR1
  if newHead = s.tail then
    { s with overflow := true, pushed := s.pushed ++ [b] }
  else
    { s with data := fun i => if i = s.head then b else s.data i,
             head := newHead, pushed := s.pushed ++ [b] }

/-- One consumer read (`getSentence` lines 233-235): if unread data is
present, read `gpsDataBuffer[bufferTail]` and advance
`bufferTail = (bufferTail + 1) % GPSBUFR1`. -/
def rbRead (s : RingState) : RingState :=
  if s.tail = s.head then s
  else { s with tail := (s.tail + 1) % GPSBUFR1,
                drained := s.drained ++ [s.data s.tail] }

/-- An interleaving step: a producer push or a consumer read. -/
inductive RBOp
  | push (b : Nat)
  | read

/-- Run an interleaving from the reset state. -/
def rbStep (s : RingState) (op : RBOp) : RingState :=
  match op with
  | .push b => rbPush b s
  | .read => rbRead s

def rbRun (ops : List RBOp) : RingState := ops.foldl rbStep rbInit

/-- Number of unread bytes held in the buffer. -/
def rbLen (s : RingState) : Nat := (s.head + GPSBUFR1 - s.tail) % GPSBUFR1

/-- The unread bytes, oldest first. -/
def rbContents (s : RingState) : List Nat :=
  (List.range (rbLen s)).map (fun i => s.data ((s.tail + i) % GPSBUFR1))

/-! ## Concrete states and inputs used in instance theorems -/

/-- The sentence-type identifier the parser isolates before the first
comma (`strchr`, line 312): the head field of the comma split. -/
def sentType (s : List Char) : List Char := (splitComma s).headD []

/-- Joining a list of fields back into a comma-separated payload tail
(inverse of `splitComma` on comma-free fields); used to quantify over
sentences with a prescribed field structure. -/
def joinFields : List (List Char) → List Char
  | [] => []
  | [fld] => fld
  | fld :: rest => fld ++ ',' :: joinFields rest

/-- A fix already holding converted local time 10:00 on 15/06/25 with a
valid solution; used to exercise a second pass of the timezone engine. -/
def tzFix : GpsFix :=
  { initGpsFix with timeH := 10, dateD := 15, dateM := 6, dateY := 25, valid := true }

/-- A fix whose last GPRMC parse reported a valid solution. -/
def validFix : GpsFix := { initGpsFix with valid := true }

/-- A short producer/consumer interleaving that never fills the buffer. -/
def rbDemoOps : List RBOp :=
  [.push 71, .push 80, .read, .push 83, .read, .read]

/-- The fix left behind by parsing the spec's reference GPRMC record
(empty speed/course fields) from the reset state. -/
def c1Parsed : GpsFix :=
  parseSentence ("GPRMC,123519,A,4807.038,N,01131.000,E,,,230394,,,A".toList) initGpsFix

/-- Consumer-view invariant of the ring buffer: indices in range, and as
long as no overflow has occurred, the bytes drained so far followed by
the bytes still unread are exactly the bytes pushed so far. -/
def RBInv (s : RingState) : Prop :=
  s.head < GPSBUFR1 ∧ s.tail < GPSBUFR1 ∧
    (s.overflow = false → s.drained ++ rbContents s = s.pushed)

/-! ## Helper lemmas: comma splitting and joining -/

theorem splitComma_ne_nil : ∀ s : List Char, splitComma s ≠ [] := by
  intro s
  induction s with
  | nil => simp [splitComma]
  | cons c r ih =>
    simp only [splitComma]
    cases h : splitComma r with
    | nil => simp
    | cons t ts => split_ifs <;> simp

theorem splitComma_single (a : List Char) (ha : ',' ∉ a) : splitComma a = [a] := by
  induction a with
  | nil => rfl
  | cons c r ih =>
    simp only [List.mem_cons, not_or] at ha
    simp only [splitComma, ih ha.2]
    simp [Ne.symm ha.1]

theorem splitComma_append (a : List Char) (B : List Char) (ha : ',' ∉ a) :
    splitComma (a ++ ',' :: B) = a :: splitComma B := by
  induction a with
  | nil =>
    simp only [List.nil_append, splitComma]
    cases h : splitComma B with
    | nil => exact absurd h (splitComma_ne_nil B)
    | cons t ts => simp
  | cons c r ih =>
    simp only [List.mem_cons, not_or] at ha
    have h2 := ih ha.2
    simp only [List.cons_append, splitComma, List.append_eq]
    rw [h2]
    simp [Ne.symm ha.1]

theorem joinFields_cons (fld : List Char) (rest : List (List Char)) (h : rest ≠ []) :
    joinFields (fld :: rest) = fld ++ ',' :: joinFields rest := by
  cases rest with
  | nil => exact absurd rfl h
  | cons g gs => rfl

theorem splitComma_join (fs : List (List Char)) (hne : fs ≠ [])
    (hfs : ∀ fld ∈ fs, ',' ∉ fld) : splitComma (joinFields fs) = fs := by
  induction fs with
  | nil => exact absurd rfl hne
  | cons f rest ih =>
    cases rest with
    | nil => exact splitComma_single f (hfs f (by simp))
    | cons g gs =>
      rw [joinFields_cons f (g :: gs) (by simp),
        splitComma_append f _ (hfs f (by simp)),
        ih (by simp) (fun fld hf => hfs fld (List.mem_cons_of_mem _ hf))]

theorem splitComma_join_append (pre : List (List Char)) (B : List Char) (hne : pre ≠ [])
    (hfs : ∀ fld ∈ pre, ',' ∉ fld) :
    splitComma (joinFields pre ++ ',' :: B) = pre ++ splitComma B := by
  induction pre with
  | nil => exact absurd rfl hne
  | cons f rest ih =>
    cases rest with
    | nil =>
      simp only [joinFields]
      rw [splitComma_append f B (hfs f (by simp))]
      rfl
    | cons g gs =>
      rw [joinFields_cons f (g :: gs) (by simp), List.append_assoc, List.cons_append,
        splitComma_append f _ (hfs f (by simp)),
        ih (by simp) (fun fld hf => hfs fld (List.mem_cons_of_mem _ hf))]
      rfl

theorem joinFields_append (A B : List (List Char)) (hA : A ≠ []) (hB : B ≠ []) :
    joinFields (A ++ B) = joinFields A ++ ',' :: joinFields B := by
  induction A with
  | nil => exact absurd rfl hA
  | cons a as ih =>
    cases as with
    | nil =>
      simp only [List.singleton_append]
      rw [joinFields_cons a B hB]
      rfl
    | cons b bs =>
      rw [List.cons_append, joinFields_cons a ((b :: bs) ++ B) (by simp),
        ih (by simp), joinFields_cons a (b :: bs) (by simp), List.append_assoc]
      rfl

theorem takeWhile_append_of_all {α : Type} (p : α → Bool) (a b : List α)
    (ha : ∀ x ∈ a, p x = true) : (a ++ b).takeWhile p = a ++ b.takeWhile p := by
  induction a with
  | nil => rfl
  | cons c r ih =>
    have hc : p c = true := ha c (by simp)
    simp only [List.cons_append, List.takeWhile_cons, hc, if_true]
    rw [ih (fun x hx => ha x (List.mem_cons_of_mem _ hx))]

theorem mem_takeWhile_pred {α : Type} (p : α → Bool) :
    ∀ (l : List α) (x : α), x ∈ l.takeWhile p → p x = true := by
  intro l
  induction l with
  | nil => intro x hx; simp at hx
  | cons a r ih =>
    intro x hx
    rw [List.takeWhile_cons] at hx
    by_cases ha : p a = true
    · rw [if_pos ha] at hx
      rcases List.mem_cons.mp hx with h1 | h2
      · exact h1 ▸ ha
      · exact ih x h2
    · rw [if_neg ha] at hx
      simp at hx

theorem dropWhile_cons_head {α : Type} (p : α → Bool) :
    ∀ (l : List α) (c : α) (rest : List α), l.dropWhile p = c :: rest → p c = false := by
  intro l
  induction l with
  | nil => intro c rest h; simp [List.dropWhile] at h
  | cons a r ih =>
    intro c rest h
    rw [List.dropWhile_cons] at h
    by_cases ha : p a = true
    · rw [if_pos ha] at h
      exact ih c rest h
    · rw [if_neg ha] at h
      injection h with h1 h2
      rw [← h1]
      simpa using ha

/-- The fuel argument of `rmcFieldsAux` is irrelevant as long as it covers
the buffer length: each continuing iteration consumes at least one byte. -/
theorem rmcFieldsAux_agree :
    ∀ (fuel1 fuel2 : Nat) (p : List Char) (n : Nat) (f : GpsFix),
      p.length ≤ fuel1 → p.length ≤ fuel2 →
      rmcFieldsAux fuel1 p n f = rmcFieldsAux fuel2 p n f := by
  intro fuel1
  induction fuel1 with
  | zero =>
    intro fuel2 p n f h1 _
    have hp : p = [] := List.eq_nil_of_length_eq_zero (Nat.le_zero.mp h1)
    subst hp
    cases fuel2 with
    | zero => rfl
    | succ g => rfl
  | succ fl ih =>
    intro fuel2 p n f h1 h2
    cases p with
    | nil =>
      cases fuel2 with
      | zero => rfl
      | succ g => rfl
    | cons c rest =>
      cases fuel2 with
      | zero => simp at h2
      | succ g =>
        simp only [rmcFieldsAux]
        split_ifs with hc1 hc2 hc3
        · exact ih g _ (n + 1) _
            (by rw [List.length_drop]; simp only [List.length_cons] at h1 ⊢; omega)
            (by rw [List.length_drop]; simp only [List.length_cons] at h2 ⊢; omega)
        · rfl
        · rfl
        · rfl

theorem rmcFieldsAux_fuel (fuel : Nat) (p : List Char) (n : Nat) (f : GpsFix)
    (h : p.length ≤ fuel) : rmcFieldsAux fuel p n f = rmcFields p n f :=
  rmcFieldsAux_agree fuel p.length p n f h le_rfl

/-- One iteration of the GPRMC loop on a non-empty comma-terminated
field: the block for field number `n` sees the field, the NUL written
over its comma, and the rest of the buffer verbatim, and the scan moves
past the comma. -/
theorem rmcFields_cons (fld0 T : List Char) (n : Nat) (f : GpsFix)
    (hne : fld0 ≠ []) (hc : ',' ∉ fld0) (hn : '\x00' ∉ fld0) :
    rmcFields (fld0 ++ ',' :: T) n f
      = rmcFields T (n + 1) (applyRMCField n (fld0 ++ '\x00' :: T) f) := by
  have halln : ∀ x ∈ fld0, (fun c => !(isNul c)) x = true := by
    intro x hx
    have hxne : x ≠ '\x00' := fun he => hn (he ▸ hx)
    simp [isNul, hxne]
  have hallc : ∀ x ∈ fld0, (fun c => !(isComma c)) x = true := by
    intro x hx
    have hxne : x ≠ ',' := fun he => hc (he ▸ hx)
    simp [isComma, hxne]
  have hcstr : (fld0 ++ ',' :: T).takeWhile (fun c => !(isNul c))
      = fld0 ++ ',' :: T.takeWhile (fun c => !(isNul c)) := by
    rw [takeWhile_append_of_all _ fld0 (',' :: T) halln, List.takeWhile_cons,
      if_pos (by decide)]
  have hfld : (fld0 ++ ',' :: T.takeWhile (fun c => !(isNul c))).takeWhile
      (fun c => !(isComma c)) = fld0 := by
    rw [takeWhile_append_of_all _ fld0 _ hallc, List.takeWhile_cons,
      if_neg (by decide), List.append_nil]
  have hdrop : (fld0 ++ ',' :: T).drop (fld0.length + 1) = T := by
    have h2 : fld0 ++ ',' :: T = (fld0 ++ [',']) ++ T := by simp
    rw [h2, List.drop_left' (by simp)]
  have hlen : (fld0 ++ ',' :: T).length = fld0.length + T.length + 1 := by
    simp only [List.length_append, List.length_cons]
    omega
  simp only [rmcFields]
  rw [hlen]
  simp only [rmcFieldsAux]
  rw [hcstr, hfld, hdrop]
  rw [if_pos (by simp only [List.length_append, List.length_cons]; omega),
    if_pos (List.length_pos.mpr hne)]
  exact rmcFieldsAux_agree (fld0.length + T.length) T.length T (n + 1) _ (by omega) le_rfl

/-- The GPRMC loop on a buffer whose first byte is the comma of an empty
field parses nothing: the field is empty, so the pointer is never
advanced and the next iteration exits. -/
theorem rmcFields_comma_stop (T : List Char) (n : Nat) (f : GpsFix) :
    rmcFields (',' :: T) n f = f := by
  have hcstr : (',' :: T).takeWhile (fun c => !(isNul c))
      = ',' :: T.takeWhile (fun c => !(isNul c)) := by
    rw [List.takeWhile_cons, if_pos (by decide)]
  have hfld : (',' :: T.takeWhile (fun c => !(isNul c))).takeWhile (fun c => !(isComma c))
      = [] := by
    rw [List.takeWhile_cons, if_neg (by decide)]
  simp only [rmcFields, List.length_cons, rmcFieldsAux]
  rw [hcstr, hfld]
  rw [if_pos (by simp), if_neg (by decide)]

/-- The GPRMC loop on an empty C string parses nothing. -/
theorem rmcFields_nul_stop (T : List Char) (n : Nat) (f : GpsFix) :
    rmcFields ('\x00' :: T) n f = f := by
  have hcstr : ('\x00' :: T).takeWhile (fun c => !(isNul c)) = [] := by
    rw [List.takeWhile_cons, if_neg (by decide)]
  simp only [rmcFields, List.length_cons, rmcFieldsAux]
  rw [hcstr, List.takeWhile_nil]
  rw [if_neg (by decide), if_neg (by decide)]

/-- A GPRMC field block only writes the outputs of its own field number,
whatever memory it reads. -/
theorem applyRMCField_preserves (n : Nat) (mem : List Char) (f : GpsFix) :
    (n ≠ 2 → (applyRMCField n mem f).valid = f.valid) ∧
    (n ≠ 3 → n ≠ 4 → (applyRMCField n mem f).lat = f.lat) ∧
    (n ≠ 5 → n ≠ 6 → (applyRMCField n mem f).long = f.long) ∧
    (n ≠ 9 → (applyRMCField n mem f).dateD = f.dateD
      ∧ (applyRMCField n mem f).dateM = f.dateM
      ∧ (applyRMCField n mem f).dateY = f.dateY) := by
  unfold applyRMCField
  split_ifs <;> simp_all

/-- Positional retention through the GPRMC loop: starting the scan at
field number `n` on a buffer whose fields are `pre`, then an empty
field, then arbitrary later fields and arbitrary bytes past the
payload's terminator, every output whose field numbers all lie outside
`n, n+1, ..., n+pre.length-1` (the only blocks that run before the scan
stalls) keeps its value. -/
theorem rmcFields_positions (post : List (List Char)) (after : List Char) :
    ∀ (pre : List (List Char)) (n : Nat) (f : GpsFix),
      (∀ fld ∈ pre, fld ≠ [] ∧ ',' ∉ fld ∧ '\x00' ∉ fld) →
      ((2 < n ∨ n + pre.length ≤ 2) →
        (rmcFields (joinFields (pre ++ [] :: post) ++ '\x00' :: after) n f).valid
          = f.valid) ∧
      ((4 < n ∨ n + pre.length ≤ 3) →
        (rmcFields (joinFields (pre ++ [] :: post) ++ '\x00' :: after) n f).lat = f.lat) ∧
      ((6 < n ∨ n + pre.length ≤ 5) →
        (rmcFields (joinFields (pre ++ [] :: post) ++ '\x00' :: after) n f).long
          = f.long) ∧
      ((9 < n ∨ n + pre.length ≤ 9) →
        (rmcFields (joinFields (pre ++ [] :: post) ++ '\x00' :: after) n f).dateD
            = f.dateD
          ∧ (rmcFields (joinFields (pre ++ [] :: post) ++ '\x00' :: after) n f).dateM
            = f.dateM
          ∧ (rmcFields (joinFields (pre ++ [] :: post) ++ '\x00' :: after) n f).dateY
            = f.dateY) := by
  intro pre
  induction pre with
  | nil =>
    intro n f _
    have hstop : rmcFields (joinFields (([] : List (List Char)) ++ [] :: post)
        ++ '\x00' :: after) n f = f := by
      cases post with
      | nil => exact rmcFields_nul_stop after n f
      | cons g gs =>
        rw [List.nil_append, joinFields_cons [] (g :: gs) (by simp), List.nil_append,
          List.cons_append]
        exact rmcFields_comma_stop _ n f
    rw [hstop]
    exact ⟨fun _ => rfl, fun _ => rfl, fun _ => rfl, fun _ => ⟨rfl, rfl, rfl⟩⟩
  | cons p pr ih =>
    intro n f hpre
    obtain ⟨hpne, hpc, hpn⟩ := hpre p (by simp)
    have hrw : joinFields ((p :: pr) ++ [] :: post) ++ '\x00' :: after
        = p ++ ',' :: (joinFields (pr ++ [] :: post) ++ '\x00' :: after) := by
      rw [List.cons_append, joinFields_cons p (pr ++ [] :: post) (by simp),
        List.append_assoc]
      rfl
    rw [hrw, rmcFields_cons p _ n f hpne hpc hpn]
    obtain ⟨ih1, ih2, ih3, ih4⟩ := ih (n + 1)
      (applyRMCField n (p ++ '\x00' :: (joinFields (pr ++ [] :: post) ++ '\x00' :: after)) f)
      (fun fld hf => hpre fld (List.mem_cons_of_mem _ hf))
    obtain ⟨a1, a2, a3, a4⟩ := applyRMCField_preserves n
      (p ++ '\x00' :: (joinFields (pr ++ [] :: post) ++ '\x00' :: after)) f
    simp only [List.length_cons]
    refine ⟨fun hc2 => ?_, fun hc2 => ?_, fun hc2 => ?_, fun hc2 => ?_⟩
    · rw [ih1 (by omega), a1 (by omega)]
    · rw [ih2 (by omega), a2 (by omega) (by omega)]
    · rw [ih3 (by omega), a3 (by omega) (by omega)]
    · obtain ⟨d1, d2, d3⟩ := a4 (by omega)
      obtain ⟨e1, e2, e3⟩ := ih4 (by omega)
      exact ⟨by rw [e1, d1], by rw [e2, d2], by rw [e3, d3]⟩

theorem ggaFields_ge8 (fs : List (List Char)) :
    ∀ (n : Nat) (f : GpsFix), 8 ≤ n → ggaFields fs n f = f := by
  induction fs with
  | nil => intro n f _; rfl
  | cons fld rest ih =>
    intro n f h8
    have h7 : ¬(n = 7 ∧ 0 < fld.length) := fun hc => by omega
    simp only [ggaFields, if_neg h7]
    exact ih (n + 1) f (by omega)

theorem ggaFields_skip (pre : List (List Char)) :
    ∀ (X : List (List Char)) (n : Nat) (f : GpsFix), n + pre.length ≤ 7 →
      ggaFields (pre ++ X) n f = ggaFields X (n + pre.length) f := by
  induction pre with
  | nil => intro X n f _; simp
  | cons p pr ih =>
    intro X n f hle
    simp only [List.length_cons] at hle
    have h7 : ¬(n = 7 ∧ 0 < p.length) := fun hc => by omega
    simp only [List.cons_append, ggaFields, if_neg h7, List.append_eq]
    rw [ih X (n + 1) f (by omega)]
    have harith : n + 1 + pr.length = n + (pr.length + 1) := by omega
    rw [List.length_cons, harith]

theorem ggaFields_preserves (fs : List (List Char)) :
    ∀ (n : Nat) (f : GpsFix),
      (ggaFields fs n f).timeH = f.timeH ∧ (ggaFields fs n f).dateD = f.dateD ∧
      (ggaFields fs n f).dateM = f.dateM ∧ (ggaFields fs n f).dateY = f.dateY := by
  induction fs with
  | nil => intro n f; exact ⟨rfl, rfl, rfl, rfl⟩
  | cons fld rest ih =>
    intro n f
    simp only [ggaFields]
    by_cases hc : n = 7 ∧ 0 < fld.length
    · rw [if_pos hc]
      exact ih (n + 1) { f with sats := if f.valid then byteOfInt (atoiZ fld) else 0 }
    · rw [if_neg hc]
      exact ih (n + 1) f

/-- `parseSentence` when the C string holds a comma: the identifier is
whatever precedes that comma, and the matching loop runs on the bytes
after it. -/
theorem parseSentence_split (t X : List Char) (f : GpsFix)
    (hc : ',' ∉ t) (hn : '\x00' ∉ t) :
    parseSentence (t ++ ',' :: X) f
      = if t = "GPRMC".toList then rmcFields X 1 f
        else if t = "GPGGA".toList then ggaFields (splitComma X) 1 f
        else f := by
  have hallc : ∀ x ∈ t, (fun c => !(isComma c)) x = true := by
    intro x hx
    have hxne : x ≠ ',' := fun he => hc (he ▸ hx)
    simp [isComma, hxne]
  have halln : ∀ x ∈ t, (fun c => !(isNul c)) x = true := by
    intro x hx
    have hxne : x ≠ '\x00' := fun he => hn (he ▸ hx)
    simp [isNul, hxne]
  have hcstr : (t ++ ',' :: X).takeWhile (fun c => !(isNul c))
      = t ++ ',' :: X.takeWhile (fun c => !(isNul c)) := by
    rw [takeWhile_append_of_all _ t (',' :: X) halln, List.takeWhile_cons,
      if_pos (by decide)]
  have hty : (t ++ ',' :: X.takeWhile (fun c => !(isNul c))).takeWhile
      (fun c => !(isComma c)) = t := by
    rw [takeWhile_append_of_all _ t _ hallc, List.takeWhile_cons,
      if_neg (by decide), List.append_nil]
  have hdrop : (t ++ ',' :: X).drop (t.length + 1) = X := by
    have h2 : t ++ ',' :: X = (t ++ [',']) ++ X := by simp
    rw [h2, List.drop_left' (by simp)]
  simp only [parseSentence]
  rw [hcstr, hty, hdrop]
  rw [if_pos (by simp only [List.length_append, List.length_cons]; omega)]

theorem parseSentence_rmc (X : List Char) (f : GpsFix) :
    parseSentence ("GPRMC".toList ++ ',' :: X) f = rmcFields X 1 f := by
  rw [parseSentence_split ("GPRMC".toList) X f (by decide) (by decide), if_pos rfl]

theorem parseSentence_gga (X : List Char) (f : GpsFix) :
    parseSentence ("GPGGA".toList ++ ',' :: X) f = ggaFields (splitComma X) 1 f := by
  rw [parseSentence_split ("GPGGA".toList) X f (by decide) (by decide),
    if_neg (by decide), if_pos rfl]

/-- When `strchr(sentence, ',')` finds a comma, the buffer splits as the
(comma-free) identifier, the comma, and the rest. -/
theorem type_split (s : List Char)
    (hlt : ((s.takeWhile (fun c => !(isNul c))).takeWhile (fun c => !(isComma c))).length
      < (s.takeWhile (fun c => !(isNul c))).length) :
    (',' ∉ (s.takeWhile (fun c => !(isNul c))).takeWhile (fun c => !(isComma c))) ∧
    ∃ Y, s = (s.takeWhile (fun c => !(isNul c))).takeWhile (fun c => !(isComma c))
      ++ ',' :: Y := by
  have hmem : ',' ∉ (s.takeWhile (fun c => !(isNul c))).takeWhile (fun c => !(isComma c)) :=
    fun hm => absurd (mem_takeWhile_pred _ _ ',' hm) (by decide)
  have hsplit1 : (s.takeWhile (fun c => !(isNul c))).takeWhile (fun c => !(isComma c))
      ++ (s.takeWhile (fun c => !(isNul c))).dropWhile (fun c => !(isComma c))
      = s.takeWhile (fun c => !(isNul c)) := List.takeWhile_append_dropWhile _ _
  have hne : (s.takeWhile (fun c => !(isNul c))).dropWhile (fun c => !(isComma c)) ≠ [] := by
    intro h0
    rw [h0, List.append_nil] at hsplit1
    rw [hsplit1] at hlt
    exact Nat.lt_irrefl _ hlt
  obtain ⟨d, rest, hd⟩ : ∃ d rest,
      (s.takeWhile (fun c => !(isNul c))).dropWhile (fun c => !(isComma c)) = d :: rest := by
    cases hdw : (s.takeWhile (fun c => !(isNul c))).dropWhile (fun c => !(isComma c)) with
    | nil => exact absurd hdw hne
    | cons d rest => exact ⟨d, rest, rfl⟩
  have hdc : d = ',' := by
    have hh := dropWhile_cons_head _ _ d rest hd
    simp [isComma] at hh
    exact hh
  have hsplit2 : s.takeWhile (fun c => !(isNul c)) ++ s.dropWhile (fun c => !(isNul c))
      = s := List.takeWhile_append_dropWhile _ _
  refine ⟨hmem, ⟨rest ++ s.dropWhile (fun c => !(isNul c)), ?_⟩⟩
  calc s = s.takeWhile (fun c => !(isNul c)) ++ s.dropWhile (fun c => !(isNul c)) :=
        hsplit2.symm
    _ = ((s.takeWhile (fun c => !(isNul c))).takeWhile (fun c => !(isComma c))
          ++ (d :: rest)) ++ s.dropWhile (fun c => !(isNul c)) := by
        rw [hd] at hsplit1
        rw [hsplit1]
    _ = (s.takeWhile (fun c => !(isNul c))).takeWhile (fun c => !(isComma c))
          ++ ',' :: (rest ++ s.dropWhile (fun c => !(isNul c))) := by
        rw [hdc]
        simp

/-- A sentence whose type is not `GPRMC` leaves the time-of-day and the
date untouched: the GPRMC loop never runs, and the GPGGA loop only ever
writes the satellite count. -/
theorem parseSentence_preserves (s : List Char) (f : GpsFix)
    (hty : sentType s ≠ "GPRMC".toList) :
    (parseSentence s f).timeH = f.timeH ∧ (parseSentence s f).dateD = f.dateD ∧
    (parseSentence s f).dateM = f.dateM ∧ (parseSentence s f).dateY = f.dateY := by
  simp only [parseSentence]
  by_cases hlt : ((s.takeWhile (fun c => !(isNul c))).takeWhile
      (fun c => !(isComma c))).length < (s.takeWhile (fun c => !(isNul c))).length
  · rw [if_pos hlt]
    obtain ⟨hnc, Y, hY⟩ := type_split s hlt
    by_cases hrmc : (s.takeWhile (fun c => !(isNul c))).takeWhile (fun c => !(isComma c))
        = "GPRMC".toList
    · exfalso
      apply hty
      rw [hY]
      simp only [sentType]
      rw [splitComma_append _ Y hnc]
      simp only [List.headD_cons]
      exact hrmc
    · rw [if_neg hrmc]
      by_cases hgga : (s.takeWhile (fun c => !(isNul c))).takeWhile (fun c => !(isComma c))
          = "GPGGA".toList
      · rw [if_pos hgga]
        exact ggaFields_preserves _ 1 f
      · rw [if_neg hgga]
        exact ⟨rfl, rfl, rfl, rfl⟩
  · rw [if_neg hlt]
    exact ⟨rfl, rfl, rfl, rfl⟩

/-! ## Claim C10: the GPRMC scan stops at the first empty field -/

/-- C10: for every accepted GPRMC payload, once the positional field scan
reaches an empty field (two consecutive delimiters), no block with a
field number at or beyond the empty position ever runs — whatever the
contents of the later fields and of the buffer bytes past the payload's
terminator — because the scan pointer is only advanced when the current
field is non-empty (line 363).  With fields `pre`, then an empty field
(at position `pre.length + 1`), then arbitrary `post` and arbitrary
trailing bytes `after`, the validity flag (written by field 2), latitude
(fields 3-4), longitude (fields 5-6) and date (field 9) each keep their
previous values whenever their field numbers lie at or beyond the empty
position. -/
theorem rmc_scan_stops_at_empty (pre post : List (List Char)) (after : List Char)
    (f : GpsFix) (hpre : ∀ fld ∈ pre, fld ≠ [] ∧ ',' ∉ fld ∧ '\x00' ∉ fld) :
    (pre.length + 1 ≤ 2 →
      (parseSentence ("GPRMC".toList ++ ',' ::
        (joinFields (pre ++ [] :: post) ++ '\x00' :: after)) f).valid = f.valid) ∧
    (pre.length + 1 ≤ 3 →
      (parseSentence ("GPRMC".toList ++ ',' ::
        (joinFields (pre ++ [] :: post) ++ '\x00' :: after)) f).lat = f.lat) ∧
    (pre.length + 1 ≤ 5 →
      (parseSentence ("GPRMC".toList ++ ',' ::
        (joinFields (pre ++ [] :: post) ++ '\x00' :: after)) f).long = f.long) ∧
    (pre.length + 1 ≤ 9 →
      (parseSentence ("GPRMC".toList ++ ',' ::
        (joinFields (pre ++ [] :: post) ++ '\x00' :: after)) f).dateD = f.dateD ∧
      (parseSentence ("GPRMC".toList ++ ',' ::
        (joinFields (pre ++ [] :: post) ++ '\x00' :: after)) f).dateM = f.dateM ∧
      (parseSentence ("GPRMC".toList ++ ',' ::
        (joinFields (pre ++ [] :: post) ++ '\x00' :: after)) f).dateY = f.dateY) := by
  rw [parseSentence_rmc]
  obtain ⟨h1, h2, h3, h4⟩ := rmcFields_positions post after pre 1 f hpre
  exact ⟨fun hc => h1 (Or.inr (by omega)), fun hc => h2 (Or.inr (by omega)),
    fun hc => h3 (Or.inr (by omega)), fun hc => h4 (Or.inr (by omega))⟩

/-- Witness for C10 at the payload `GPRMC,1,A,,99` followed by its
terminator and the checksum text `3B`: the empty field sits at position
3, so the longitude and date outputs (fields 5-6 and 9) keep their
values whatever `99` and `3B` hold.  The final conjunct pins down the
model's raw-memory reads: field 1 is the single character `1`, so the
seconds are decoded from the buffer bytes after it —
`dtoi(',') * 10 + dtoi('9') = 9` — exactly as the C code reads them. -/
theorem rmc_scan_stops_at_empty_witness :
    (parseSentence ("GPRMC".toList ++ ',' ::
      (joinFields ([['1'], ['A']] ++ [] :: [['9', '9']]) ++ '\x00' :: "3B".toList))
      tzFix).long = tzFix.long ∧
    (parseSentence ("GPRMC".toList ++ ',' ::
      (joinFields ([['1'], ['A']] ++ [] :: [['9', '9']]) ++ '\x00' :: "3B".toList))
      tzFix).dateD = tzFix.dateD ∧
    (parseSentence ("GPRMC".toList ++ ',' ::
      (joinFields ([['1'], ['A']] ++ [] :: [['9', '9']]) ++ '\x00' :: "3B".toList))
      tzFix).timeS = 9 :=
  ⟨(rmc_scan_stops_at_empty [['1'], ['A']] [['9', '9']] ("3B".toList) tzFix
      (by decide)).2.2.1 (by decide),
    ((rmc_scan_stops_at_empty [['1'], ['A']] [['9', '9']] ("3B".toList) tzFix
      (by decide)).2.2.2 (by decide)).1,
    by decide⟩

/-! ## Claim C9: the GPGGA satellite count -/

/-- C9 (amended): for every accepted GPGGA payload whose field 7 is
non-empty, the satellite count is set to the standard decimal integer
parse of that field REDUCED MODULO 256 (the count is stored in a `byte`;
for the usual one- or two-digit field the reduction is the identity, so
field `08` yields 8) when the validity flag from the most recent GPRMC
parse is true, and to 0 when that flag is false, regardless of field 7's
content. -/
theorem gga_sats_update (pre : List (List Char)) (f7 : List Char) (post : List (List Char))
    (f : GpsFix) (hlen : pre.length = 6) (hpre : ∀ fld ∈ pre, ',' ∉ fld)
    (hf7c : ',' ∉ f7) (hf7 : f7 ≠ []) :
    parseSentence ("GPGGA".toList ++ ',' :: joinFields (pre ++ f7 :: post)) f
      = { f with sats := if f.valid then byteOfInt (atoiZ f7) else 0 } := by
  have hprene : pre ≠ [] := by
    intro h
    rw [h] at hlen
    simp at hlen
  obtain ⟨W, hW⟩ : ∃ W, splitComma (joinFields (f7 :: post)) = f7 :: W := by
    cases post with
    | nil => exact ⟨[], splitComma_single f7 hf7c⟩
    | cons g gs =>
      rw [joinFields_cons f7 (g :: gs) (by simp)]
      exact ⟨_, splitComma_append f7 _ hf7c⟩
  rw [parseSentence_gga,
    joinFields_append pre (f7 :: post) hprene (by simp),
    splitComma_join_append pre _ hprene hpre, hW,
    ggaFields_skip pre (f7 :: W) 1 f (by omega), hlen]
  have h7 : (1 : Nat) + 6 = 7 := rfl
  rw [h7]
  have hlenpos : 0 < f7.length := List.length_pos.mpr hf7
  simp only [ggaFields, true_and, if_pos hlenpos]
  exact ggaFields_ge8 W (7 + 1) _ (by omega)

/-- C9 counterexample to the claim as stated: with a valid preceding
GPRMC, a GPGGA whose field 7 reads `300` yields a satellite count of 44
(= 300 mod 256), not the decimal parse 300, because `gpsSats` is a
`byte`. -/
theorem gga_sats_byte_truncation :
    (parseSentence ("GPGGA,1,2,3,4,5,6,300".toList) validFix).sats = 44 ∧
      atoiZ ("300".toList) = 300 ∧ (44 : Nat) ≠ 300 := by decide

/-- Witness for C9 at the spec's own example: field 7 = `08` with a valid
preceding GPRMC gives 8 satellites. -/
theorem gga_sats_update_witness :
    parseSentence
        ("GPGGA".toList ++ ',' :: joinFields ([['1'], ['2'], ['3'], ['4'], ['5'], ['6']]
          ++ ['0', '8'] :: []))
        validFix
      = { validFix with sats := 8 } := by
  rw [gga_sats_update [['1'], ['2'], ['3'], ['4'], ['5'], ['6']] ['0', '8'] [] validFix
    (by decide) (by decide) (by decide) (by decide)]
  decide

/-! ## Claim C1: the reference GPRMC record -/

/-- C1 evaluation at the failing input (code bug): parsing the payload
`GPRMC,123519,A,4807.038,N,01131.000,E,,,230394,,,A` sets the time,
validity, latitude (exactly 48.1173) and longitude (within 10^-4 of
11.5167) as the claim states, but the DATE fields keep their prior
values (here the reset values 0/0/0 instead of the claimed 23/03/94):
the scan stalls at the empty field 7 (see the stop theorem for C10), so
field 9 is never decoded. -/
theorem rmc_example_record_result :
    (c1Parsed.timeH = 12 ∧ c1Parsed.timeM = 35 ∧ c1Parsed.timeS = 19 ∧
      c1Parsed.valid = true) ∧
    c1Parsed.lat = 481173 / 10000 ∧
    |c1Parsed.long - 115167 / 10000| < 1 / 10000 ∧
    (c1Parsed.dateD = 0 ∧ c1Parsed.dateM = 0 ∧ c1Parsed.dateY = 0) := by
  refine ⟨by decide, ?_, ?_, by decide⟩
  · have h : c1Parsed.lat
        = (dtoi '4' * 10 + dtoi '8' : ℚ)
          + atofQ ("07.038\x00N,01131.000,E,,,230394,,,A".toList) / 60 := rfl
    rw [h, atofQ,
      show atofParts ("07.038\x00N,01131.000,E,,,230394,,,A".toList) = (false, 7, 38, 3)
        from by decide,
      show dtoi '4' = 4 from by decide, show dtoi '8' = 8 from by decide]
    norm_num
  · have h : c1Parsed.long
        = (dtoi '0' * 100 + dtoi '1' * 10 + dtoi '1' : ℚ)
          + atofQ ("31.000\x00E,,,230394,,,A".toList) / 60 := rfl
    rw [h, atofQ,
      show atofParts ("31.000\x00E,,,230394,,,A".toList) = (false, 31, 0, 3)
        from by decide,
      show dtoi '0' = 0 from by decide, show dtoi '1' = 1 from by decide]
    norm_num
    rw [abs_of_nonneg (by norm_num : (0 : ℚ) ≤ 1 / 30000)]
    norm_num

/-! ## Claims C2 and C3: the calendar / timezone engine -/

/-- C2: for every valid calendar date (day within the month, with
February 29 days exactly when the year is divisible by 4), hour 0-23,
and offset of magnitude below 24 with `hour + offset >= 24`, the engine
subtracts 24 from the hour and advances the date by one calendar day,
with month, year and century rollover exactly as the claim describes
(`nextDayS`).  The claim's particular cases 23:00 +2 on 31/12/99 and
February 28 + 1 day in a leap year are instances. -/
theorem tz_forward_rollover (h d m y off : Int) (hm1 : 1 ≤ m) (hm2 : m ≤ 12)
    (hd1 : 1 ≤ d) (hd2 : d ≤ monthDays m y) (hh1 : 0 ≤ h) (hh2 : h ≤ 23)
    (hy1 : 0 ≤ y) (hy2 : y ≤ 99) (ho1 : -24 < off) (ho2 : off < 24)
    (hsum : 24 ≤ h + off) :
    tzAdjust off h d m y = (h + off - 24, nextDayS d m y) := by
  simp only [monthDays, dimLeap] at hd2
  simp only [tzAdjust, tzRoll, nextDayS, monthDays, dimLeap]
  split_ifs at hd2 ⊢ <;> simp only [Prod.mk.injEq] <;> omega

/-- Witness for C2: 23:00 UTC with offset +2 on 31/12/99 becomes 01:00
on 01/01/00 (century rollover). -/
theorem tz_forward_rollover_witness : tzAdjust 2 23 31 12 99 = (1, 1, 1, 0) := by
  have h := tz_forward_rollover 23 31 12 99 2 (by decide) (by decide) (by decide)
    (by decide) (by decide) (by decide) (by decide) (by decide) (by decide) (by decide)
    (by decide)
  rw [h]
  decide

set_option maxHeartbeats 1000000 in
/-- C3: for every valid calendar date and hour 0-23, an offset with
`hour + offset < 0` makes the engine add 24 to the hour and move the
date back one calendar day, with month, year and century rollover
exactly as the claim describes (`prevDayS`). -/
theorem tz_backward_rollover (h d m y off : Int) (hm1 : 1 ≤ m) (hm2 : m ≤ 12)
    (hd1 : 1 ≤ d) (hd2 : d ≤ monthDays m y) (hh1 : 0 ≤ h) (hh2 : h ≤ 23)
    (hy1 : 0 ≤ y) (hy2 : y ≤ 99) (hsum : h + off < 0) :
    tzAdjust off h d m y = (h + off + 24, prevDayS d m y) := by
  simp only [monthDays, dimLeap] at hd2
  simp only [tzAdjust, tzRoll, prevDayS, monthDays, dimLeap]
  split_ifs at hd2 ⊢ <;> simp only [Prod.mk.injEq] <;> omega

/-- Witness for C3: 00:00 UTC with offset -5 on 01/01/00 becomes 19:00
on 31/12/99 (century rollover backward). -/
theorem tz_backward_rollover_witness : tzAdjust (-5) 0 1 1 0 = (19, 31, 12, 99) := by
  have h := tz_backward_rollover 0 1 1 0 (-5) (by decide) (by decide) (by decide)
    (by decide) (by decide) (by decide) (by decide) (by decide) (by decide)
  rw [h]
  decide

/-! ## Claim C4: when the timezone engine runs -/

/-- C4 counterexample to the claim as stated: an accepted GPGGA sentence
does NOT leave the fix's hour unchanged — with offset +2 and stored
local time 10:00 on a valid date, accepting `GPGGA,1,2,3,4,5,6,7` bumps
the hour to 12, because `loop` runs the timezone block for every
accepted sentence, not only for GPRMC. -/
theorem tz_reapplied_on_gga :
    (acceptedStep 2 tzFix ("GPGGA,1,2,3,4,5,6,7".toList)).timeH = 12 ∧
      tzFix.timeH = 10 := by decide

/-- C4 (amended): the calendar/timezone transformation runs exactly once
per accepted, fully-parsed sentence OF ANY TYPE.  For an accepted
sentence that is not GPRMC the parser leaves hour and date untouched,
and the engine is then applied AGAIN to these already-converted values:
the resulting hour/date are exactly `tzApply` of the previous fix. -/
theorem tz_runs_per_accepted_sentence (off : Int) (f : GpsFix) (s : List Char)
    (hty : sentType s ≠ "GPRMC".toList) :
    (acceptedStep off f s).timeH = (tzApply off f).timeH ∧
    (acceptedStep off f s).dateD = (tzApply off f).dateD ∧
    (acceptedStep off f s).dateM = (tzApply off f).dateM ∧
    (acceptedStep off f s).dateY = (tzApply off f).dateY := by
  have hp := parseSentence_preserves s f hty
  obtain ⟨h1, h2, h3, h4⟩ := hp
  unfold acceptedStep tzApply
  rw [h1, h2, h3, h4]
  exact ⟨rfl, rfl, rfl, rfl⟩

/-- Witness for the amended C4 at a concrete accepted GPGGA sentence. -/
theorem tz_runs_per_accepted_sentence_witness :
    (acceptedStep 2 tzFix ("GPGGA,1,2,3,4,5,6,7".toList)).timeH
        = (tzApply 2 tzFix).timeH ∧
    (acceptedStep 2 tzFix ("GPGGA,1,2,3,4,5,6,7".toList)).dateD
        = (tzApply 2 tzFix).dateD ∧
    (acceptedStep 2 tzFix ("GPGGA,1,2,3,4,5,6,7".toList)).dateM
        = (tzApply 2 tzFix).dateM ∧
    (acceptedStep 2 tzFix ("GPGGA,1,2,3,4,5,6,7".toList)).dateY
        = (tzApply 2 tzFix).dateY :=
  tz_runs_per_accepted_sentence 2 tzFix ("GPGGA,1,2,3,4,5,6,7".toList) (by decide)

/-! ## Claims C5 and C8: validator rejection behaviour -/

theorem takeWhile_of_all {α : Type} (p : α → Bool) :
    ∀ l : List α, (∀ x ∈ l, p x = true) → l.takeWhile p = l := by
  intro l
  induction l with
  | nil => intro _; rfl
  | cons a r ih =>
    intro h
    have ha : p a = true := h a (by simp)
    simp [List.takeWhile_cons, ha, ih (fun x hx => h x (List.mem_cons_of_mem _ hx))]

theorem dropWhile_of_all {α : Type} (p : α → Bool) :
    ∀ l : List α, (∀ x ∈ l, p x = true) → l.dropWhile p = [] := by
  intro l
  induction l with
  | nil => intro _; rfl
  | cons a r ih =>
    intro h
    have ha : p a = true := h a (by simp)
    simp [List.dropWhile_cons, ha, ih (fun x hx => h x (List.mem_cons_of_mem _ hx))]

theorem dropWhile_of_none {α : Type} (p : α → Bool) :
    ∀ l : List α, (∀ x ∈ l, p x = false) → l.dropWhile p = l := by
  intro l
  induction l with
  | nil => intro _; rfl
  | cons a r ih =>
    intro h
    have ha : p a = false := h a (by simp)
    simp [List.dropWhile_cons, ha]

theorem mem_of_mem_takeWhile2 {α : Type} (p : α → Bool) :
    ∀ (l : List α) (x : α), x ∈ l.takeWhile p → x ∈ l := by
  intro l
  induction l with
  | nil => intro x hx; simpa using hx
  | cons a r ih =>
    intro x hx
    rw [List.takeWhile_cons] at hx
    by_cases ha : p a = true
    · rw [if_pos ha] at hx
      rcases List.mem_cons.mp hx with h1 | h2
      · exact h1 ▸ List.mem_cons_self a r
      · exact List.mem_cons_of_mem _ (ih x h2)
    · rw [if_neg ha] at hx
      simp at hx

/-- C5 (amended): the validator rejects on a missing `*`, on a short
checksum text, and on an XOR mismatch, but only the MISMATCH case
increments the checksum-error counter (and prints the diagnostic); the
other two rejection paths discard the record silently.  No rejected
record of any kind mutates the fix (field parsing is skipped). -/
theorem validator_reject_behaviour (r : List Char) (f : GpsFix) (c : Nat) (off : Int) :
    (validateRecord r = .mismatch → loopStep off (f, c) r = (f, c + 1)) ∧
    (validateRecord r = .silentReject → loopStep off (f, c) r = (f, c)) ∧
    ('*' ∉ r → validateRecord r = .silentReject) ∧
    (validateRecord r ≠ .accepted → (loopStep off (f, c) r).1 = f) := by
  refine ⟨fun h => by simp [loopStep, h], fun h => by simp [loopStep, h], ?_, ?_⟩
  · intro hstar
    have hs : ∀ x ∈ r.takeWhile (fun c2 => !(isNul c2)), isStar x = false := by
      intro x hx
      have hxr : x ∈ r := mem_of_mem_takeWhile2 _ r x hx
      have hne : x ≠ '*' := fun he => hstar (he ▸ hxr)
      simpa [isStar] using hne
    simp only [validateRecord]
    rw [dropWhile_of_none isStar (r.takeWhile (fun c => !(isNul c))) hs,
      dropWhile_of_all (fun c => !(isStar c)) (r.takeWhile (fun c => !(isNul c)))
        (fun x hx => by simp [hs x hx]),
      takeWhile_of_all (fun c => !(isStar c)) (r.takeWhile (fun c => !(isNul c)))
        (fun x hx => by simp [hs x hx])]
    by_cases he : r.takeWhile (fun c => !(isNul c)) = []
    · rw [if_pos he]
    · rw [if_neg he]
      rfl
  · intro hna
    unfold loopStep
    rcases hv : validateRecord r with _ | _ | _
    · exact absurd hv hna
    · rfl
    · rfl

/-- Witness for the amended C5: a record with no `*` is rejected without
counting; a garbled checksum is rejected and counted. -/
theorem validator_reject_behaviour_witness :
    validateRecord ("GPRMC,A".toList) = .silentReject ∧
    loopStep 0 (initGpsFix, 0) ("GPRMC,A".toList) = (initGpsFix, 0) ∧
    loopStep 0 (initGpsFix, 3) ("GPRMC,A*00".toList) = (initGpsFix, 4) :=
  ⟨(validator_reject_behaviour ("GPRMC,A".toList) initGpsFix 0 0).2.2.1 (by decide),
    (validator_reject_behaviour ("GPRMC,A".toList) initGpsFix 0 0).2.1 (by decide),
    (validator_reject_behaviour ("GPRMC,A*00".toList) initGpsFix 3 0).1 (by decide)⟩

/-- C5 counterexample to the claim as stated: the record `GPRMC,A`
(framed, but containing no `*`) is rejected, yet the checksum-error
counter is NOT incremented — contradicting "every rejection increments
the checksum-error counter and emits a diagnostic". -/
theorem silent_reject_uncounted :
    validateRecord ("GPRMC,A".toList) = .silentReject ∧
    loopStep 5 (initGpsFix, 7) ("GPRMC,A".toList) = (initGpsFix, 7) := by decide

/-- C8: a framed record that reaches the checksum comparison and fails it
is counted (`checksumErrors + 1`) and discarded: the fix is left exactly
as it was — no field of it is mutated, since the payload never reaches
`parseSentence`. -/
theorem bad_checksum_preserves_fix (r : List Char) (f : GpsFix) (c : Nat) (off : Int)
    (h : validateRecord r = .mismatch) : loopStep off (f, c) r = (f, c + 1) := by
  simp [loopStep, h]

/-- Witness for C8: `GPRMC,A*00` carries a wrong checksum (the XOR of the
payload is 0x26); processing it bumps the counter from 5 to 6 and leaves
the fix untouched. -/
theorem bad_checksum_preserves_fix_witness :
    loopStep 0 (initGpsFix, 5) ("GPRMC,A*00".toList) = (initGpsFix, 6) :=
  bad_checksum_preserves_fix ("GPRMC,A*00".toList) initGpsFix 5 0 (by decide)

/-! ## Claim C6: checksum round trip -/

theorem xorCk_lt (p : List Char) : xorCk p < 256 := by
  have haux : ∀ (l : List Char) (a : Nat), a < 256 →
      l.foldl (fun a2 c => Nat.xor a2 (c.toNat % 256)) a < 256 := by
    intro l
    induction l with
    | nil => intro a ha; simpa using ha
    | cons c r ih =>
      intro a ha
      simp only [List.foldl_cons]
      exact ih _ (Nat.xor_lt_two_pow (n := 8) ha (Nat.mod_lt _ (by omega)))
  exact haux p 0 (by omega)

theorem hexDig_props (d : Nat) (hd : d < 16) :
    htoi (hexDig d) = d ∧ isNul (hexDig d) = false ∧ isStar (hexDig d) = false := by
  interval_cases d <;> decide

theorem takeWhile_until_star (a q : List Char) (ha : ∀ x ∈ a, isStar x = false) :
    (a ++ '*' :: q).takeWhile (fun c => !(isStar c)) = a ∧
    (a ++ '*' :: q).dropWhile (fun c => !(isStar c)) = '*' :: q := by
  induction a with
  | nil => constructor <;> rfl
  | cons c r ih =>
    have hc : isStar c = false := ha c (by simp)
    obtain ⟨ih1, ih2⟩ := ih (fun x hx => ha x (List.mem_cons_of_mem _ hx))
    constructor
    · simp only [List.cons_append, List.takeWhile_cons, hc]
      simp [ih1]
    · simp only [List.cons_append, List.dropWhile_cons, hc]
      simp [ih2]

/-- C6 (amended): for every NON-EMPTY payload containing no `*` (and, as
any C string, no NUL), appending `*` and the two uppercase hex digits of
the payload's XOR makes the validator accept; and the source's `htoi`
decodes every character case-insensitively as a hex digit with non-hex
characters decoding to zero (`hexVal`, stated from the spec's words).
The non-emptiness and star-freeness are forced by the counterexample: a
payload containing `*` re-splits at its first `*` and is rejected. -/
theorem checksum_round_trip :
    (∀ p : List Char, p ≠ [] → '*' ∉ p → '\x00' ∉ p →
      validateRecord (p ++ '*' :: hexEncode (xorCk p)) = .accepted) ∧
    (∀ c : Char, htoi c = hexVal c) := by
  constructor
  · intro p hne hstar hnul
    have hb := xorCk_lt p
    have hd1 : xorCk p / 16 < 16 := by omega
    have hd2 : xorCk p % 16 < 16 := by omega
    obtain ⟨e1, e2, e3⟩ := hexDig_props _ hd1
    obtain ⟨g1, g2, g3⟩ := hexDig_props _ hd2
    have hpstar : ∀ x ∈ p, isStar x = false := by
      intro x hx
      have : x ≠ '*' := fun he => hstar (he ▸ hx)
      simpa [isStar] using this
    have hpnul : ∀ x ∈ p, isNul x = false := by
      intro x hx
      have : x ≠ '\x00' := fun he => hnul (he ▸ hx)
      simpa [isNul] using this
    have hsall : ∀ x ∈ p ++ '*' :: hexEncode (xorCk p), (!(isNul x)) = true := by
      intro x hx
      rcases List.mem_append.mp hx with h1 | h2
      · simp [hpnul x h1]
      · rcases List.mem_cons.mp h2 with h3 | h4
        · subst h3; decide
        · rcases List.mem_cons.mp h4 with h5 | h6
          · subst h5; simp [e2]
          · rcases List.mem_cons.mp h6 with h7 | h8
            · subst h7; simp [g2]
            · simp at h8
    simp only [validateRecord]
    rw [takeWhile_of_all _ _ hsall]
    obtain ⟨ht, hdrp⟩ := takeWhile_until_star p (hexEncode (xorCk p)) hpstar
    obtain ⟨c0, p', hp⟩ : ∃ c0 p', p = c0 :: p' := by
      cases p with
      | nil => exact absurd rfl hne
      | cons c0 p' => exact ⟨c0, p', rfl⟩
    have hdrop0 : (p ++ '*' :: hexEncode (xorCk p)).dropWhile isStar
        = p ++ '*' :: hexEncode (xorCk p) := by
      rw [hp, List.cons_append, List.dropWhile_cons, hpstar c0 (by rw [hp]; simp)]
      simp
    rw [hdrop0, ht, hdrp]
    have hdrop1 : (('*' :: hexEncode (xorCk p)).dropWhile isStar) = hexEncode (xorCk p) := by
      rw [List.dropWhile_cons]
      simp only [show isStar '*' = true from rfl, if_true]
      exact dropWhile_of_none isStar _ (by
        intro x hx
        rcases List.mem_cons.mp hx with h5 | h6
        · subst h5; exact e3
        · rcases List.mem_cons.mp h6 with h7 | h8
          · subst h7; exact g3
          · simp at h8)
    rw [hdrop1, takeWhile_of_all _ (hexEncode (xorCk p)) (by
      intro x hx
      rcases List.mem_cons.mp hx with h5 | h6
      · subst h5; simp [e3]
      · rcases List.mem_cons.mp h6 with h7 | h8
        · subst h7; simp [g3]
        · simp at h8)]
    rw [if_neg hne, if_neg (by simp [hexEncode] : hexEncode (xorCk p) ≠ [])]
    have hlen : ¬ (hexEncode (xorCk p)).length < 2 := by simp [hexEncode]
    rw [if_neg hlen]
    have hck : ckVal (hexEncode (xorCk p)) = xorCk p := by
      simp only [ckVal, hexEncode, List.getD]
      simp only [List.get?_eq_getElem?]
      simp [e1, g1]
      omega
    rw [if_pos]
    rw [hck]
  · intro c
    simp only [htoi, hexVal]
    split_ifs <;> omega

/-- C6 counterexample to the claim as stated ("for every payload
string"): the payload `A*B` has XOR checksum 0x29, but the record
`A*B*29` re-splits at the FIRST `*`, leaving the one-character checksum
text `B`, so the validator rejects instead of accepting. -/
theorem round_trip_fails_star_payload :
    hexEncode (xorCk ("A*B".toList)) = "29".toList ∧
    validateRecord ("A*B".toList ++ '*' :: hexEncode (xorCk ("A*B".toList)))
      = .silentReject := by decide

/-- Witness for the amended C6 at a concrete payload and a concrete
lowercase hex character. -/
theorem checksum_round_trip_witness :
    validateRecord ("GPGGA,TEST".toList ++ '*' :: hexEncode (xorCk ("GPGGA,TEST".toList)))
        = .accepted ∧
    htoi 'e' = hexVal 'e' :=
  ⟨checksum_round_trip.1 ("GPGGA,TEST".toList) (by decide) (by decide) (by decide),
    checksum_round_trip.2 'e'⟩

/-! ## Claim C7: ring buffer FIFO -/

theorem rbContents_push (s : RingState) (b : Nat) (h1 : s.head < GPSBUFR1)
    (h2 : s.tail < GPSBUFR1) (hnf : ¬((s.head + 1) % GPSBUFR1 = s.tail)) :
    rbContents (rbPush b s) = rbContents s ++ [b] := by
  have hd : (rbPush b s).data = fun i => if i = s.head then b else s.data i := by
    simp [rbPush, if_neg hnf]
  have htl : (rbPush b s).tail = s.tail := by
    simp [rbPush, if_neg hnf]
  have hhd : (rbPush b s).head = (s.head + 1) % GPSBUFR1 := by
    simp [rbPush, if_neg hnf]
  have hlen : rbLen (rbPush b s) = rbLen s + 1 := by
    simp only [rbLen, hhd, htl, GPSBUFR1] at *
    omega
  simp only [rbContents, hlen, hd, htl]
  rw [List.range_succ, List.map_append]
  congr 1
  · apply List.map_congr_left
    intro i hi
    have hi2 : i < rbLen s := List.mem_range.mp hi
    have hne : ¬((s.tail + i) % GPSBUFR1 = s.head) := by
      simp only [rbLen, GPSBUFR1] at hi2 ⊢
      omega
    simp [hne]
  · have heq : (s.tail + rbLen s) % GPSBUFR1 = s.head := by
      simp only [rbLen, GPSBUFR1] at *
      omega
    simp [heq]

theorem rbContents_read (s : RingState) (h1 : s.head < GPSBUFR1) (h2 : s.tail < GPSBUFR1)
    (hne : ¬(s.tail = s.head)) :
    rbContents s = s.data s.tail :: rbContents (rbRead s) := by
  have hd : (rbRead s).data = s.data := by simp [rbRead, if_neg hne]
  have htl : (rbRead s).tail = (s.tail + 1) % GPSBUFR1 := by simp [rbRead, if_neg hne]
  have hhd : (rbRead s).head = s.head := by simp [rbRead, if_neg hne]
  have hlen : rbLen s = rbLen (rbRead s) + 1 := by
    simp only [rbLen, hhd, htl, GPSBUFR1] at *
    omega
  simp only [rbContents, hlen, hd, htl, hhd]
  rw [List.range_succ_eq_map, List.map_cons]
  have h0 : (s.tail + 0) % GPSBUFR1 = s.tail := by
    simp only [GPSBUFR1] at *
    omega
  rw [h0]
  congr 1
  rw [List.map_map]
  apply List.map_congr_left
  intro i hi
  have heq : (s.tail + (i + 1)) % GPSBUFR1 = ((s.tail + 1) % GPSBUFR1 + i) % GPSBUFR1 := by
    simp only [GPSBUFR1] at *
    omega
  simp only [Function.comp]
  rw [heq]

theorem rbStep_inv (s : RingState) (op : RBOp) (h : RBInv s) : RBInv (rbStep s op) := by
  obtain ⟨hh, ht, hrel⟩ := h
  cases op with
  | push b =>
    by_cases hnf : (s.head + 1) % GPSBUFR1 = s.tail
    · refine ⟨?_, ?_, ?_⟩ <;> simp only [rbStep, rbPush, if_pos hnf]
      · exact hh
      · exact ht
      · intro hov
        simp at hov
    · refine ⟨?_, ?_, ?_⟩ <;> simp only [rbStep, rbPush, if_neg hnf]
      · have : GPSBUFR1 ≠ 0 := by simp [GPSBUFR1]
        exact Nat.mod_lt _ (Nat.pos_of_ne_zero this)
      · exact ht
      · intro hov
        have hcp := rbContents_push s b hh ht hnf
        simp only [rbPush, if_neg hnf] at hcp ⊢
        rw [hcp, ← List.append_assoc, hrel hov]
  | read =>
    by_cases hne : s.tail = s.head
    · simpa only [rbStep, rbRead, if_pos hne] using ⟨hh, ht, hrel⟩
    · refine ⟨?_, ?_, ?_⟩ <;> simp only [rbStep, rbRead, if_neg hne]
      · exact hh
      · have : GPSBUFR1 ≠ 0 := by simp [GPSBUFR1]
        exact Nat.mod_lt _ (Nat.pos_of_ne_zero this)
      · intro hov
        have hcr := rbContents_read s hh ht hne
        simp only [rbRead, if_neg hne] at hcr
        rw [List.append_assoc, List.singleton_append, ← hcr, hrel hov]

theorem rbFoldl_inv : ∀ (ops : List RBOp) (s : RingState), RBInv s →
    RBInv (ops.foldl rbStep s) := by
  intro ops
  induction ops with
  | nil => intro s h; exact h
  | cons op rest ih =>
    intro s h
    exact ih (rbStep s op) (rbStep_inv s op h)

/-- C7: for every interleaving of producer pushes and consumer reads in
which the buffer never becomes full (equivalently, the sticky overflow
flag is still clear at the end), the bytes the consumer has observed,
followed by the bytes still waiting in the buffer, are EXACTLY the bytes
pushed, in order: FIFO, nothing lost, nothing duplicated.  In
particular, once the buffer is fully drained the consumer has observed
precisely the pushed sequence. -/
theorem ring_buffer_fifo (ops : List RBOp)
    (hnf : (rbRun ops).overflow = false) :
    (rbRun ops).drained ++ rbContents (rbRun ops) = (rbRun ops).pushed ∧
    ((rbRun ops).tail = (rbRun ops).head →
      (rbRun ops).drained = (rbRun ops).pushed) := by
  have hinit : RBInv rbInit := by
    refine ⟨by simp [rbInit, GPSBUFR1], by simp [rbInit, GPSBUFR1], ?_⟩
    intro _
    simp [rbInit, rbContents, rbLen, GPSBUFR1]
  have hinv := rbFoldl_inv ops rbInit hinit
  have hmain : (rbRun ops).drained ++ rbContents (rbRun ops) = (rbRun ops).pushed :=
    hinv.2.2 hnf
  refine ⟨hmain, ?_⟩
  intro hte
  have hzero : rbLen (rbRun ops) = 0 := by
    simp only [rbLen, hte, GPSBUFR1]
    omega
  have hcont : rbContents (rbRun ops) = [] := by
    simp [rbContents, hzero]
  rw [hcont, List.append_nil] at hmain
  exact hmain

/-- Witness for C7 at a concrete interleaving of three pushes and three
reads, which drains the buffer completely: the consumer observed exactly
the pushed bytes. -/
theorem ring_buffer_fifo_witness :
    (rbRun rbDemoOps).drained ++ rbContents (rbRun rbDemoOps) = (rbRun rbDemoOps).pushed ∧
    (rbRun rbDemoOps).drained = (rbRun rbDemoOps).pushed :=
  ⟨(ring_buffer_fifo rbDemoOps (by decide)).1,
    (ring_buffer_fifo rbDemoOps (by decide)).2 (by decide)⟩
